import Mathlib

/-!
Shallow embedding of `joycaption/joy_caption_batch.py` from the
`musubi-tuner-runpod-template` repository: the `JoyCaptionManager`
resource-lifecycle class and the `process_images` batch pipeline.

Modelling conventions:

* External effects are explicit inputs: the two `from_pretrained` calls inside
  `load_model` are an environment supplying `Option Nat` handle ids (`none`
  means the call raises), `Image.open` / inference / `f.write` are per-item
  booleans or `Option String` results, and the filesystem is a list of file
  names.
* Every operation additionally returns a trace of `Event`s (lock acquire and
  release, handle construction and destruction, timer scheduling, inference
  invocation, file writes) so that claims about "the resource is not touched"
  or "transitions happen under the mutex" are statements about traces.
* Python exceptions are split in two: `Exception`-kind failures (which the
  per-item `except Exception` clause of `process_images` catches) come from
  the per-item environment as failing results, and `BaseException`-kind
  interruptions (`KeyboardInterrupt` and the like, which that clause does NOT
  catch) are the `interrupt` flag, which aborts the loop but still runs the
  `finally` block.
* Fields of `JoyCaptionManager` that no claim depends on (`device`,
  `timeout`, `model_name`) are omitted; the `timer` field is abstracted to
  the boolean `timerPending` (a timer object is scheduled and not yet
  cancelled).
-/

namespace JoyCaptionBatch

/-- Character-list representation of Python strings (file names, captions,
trigger words).  This is the same data as a Lean `String` (`"x".data`), with
operations the kernel can evaluate. -/
abbrev Str := List Char

/-- Observable effects of the embedded operations, in program order. -/
inductive Event where
  | acquire
  | release
  | constructProcessor (id : Nat)
  | constructModel (id : Nat)
  | destructModel
  | destructProcessor
  | timerCancel
  | timerSet
  | infer
  | writeFile (name : Str)
  | mkdirOutput
  | finalCleanup
deriving Repr, DecidableEq

/-- Mutable state of a `JoyCaptionManager`: the `self.model` and
`self.processor` slots (handle ids; `none` is Python `None`) and whether an
eviction timer is currently scheduled (`self.timer` set and not cancelled). -/
structure ManagerState where
  model : Option Nat
  processor : Option Nat
  timerPending : Bool
deriving Repr, DecidableEq

/-- `JoyCaptionManager.__init__`: both slots start as `None`, no timer. -/
def initManager : ManagerState := ⟨none, none, false⟩

/-- `JoyCaptionManager.load_model`.  `procRes` and `modelRes` are the outcomes
the environment assigns to the `AutoProcessor.from_pretrained` and
`LlavaForConditionalGeneration.from_pretrained` calls (`none` = the call
raises).  Returns the new state, `true` iff the method raises, and the event
trace.  The whole body runs under `with self.lock`, which releases the lock
even when an exception propagates; note that when the processor assignment
has happened and the model load then raises, `self.processor` keeps the new
value while `self.model` stays `None`. -/
def load_model (procRes modelRes : Option Nat) (st : ManagerState) :
    ManagerState × Bool × List Event :=
  if st.model.isSome then
    (st, false, [.acquire, .release])
  else
    match procRes with
    | none => (st, true, [.acquire, .release])
    | some p =>
      match modelRes with
      | none =>
        ({ st with processor := some p }, true,
         [.acquire, .constructProcessor p, .release])
      | some m =>
        ({ st with processor := some p, model := some m }, false,
         [.acquire, .constructProcessor p, .constructModel m, .release])

/-- `JoyCaptionManager.unload_model`: under the lock, if `self.model` is not
`None`, delete both slots and set them to `None`; otherwise do nothing. -/
def unload_model (st : ManagerState) : ManagerState × List Event :=
  if st.model.isSome then
    ({ st with model := none, processor := none },
     [.acquire, .destructModel, .destructProcessor, .release])
  else
    (st, [.acquire, .release])

/-- `JoyCaptionManager.reset_timer`: cancel a pending timer if any, then
schedule a fresh one.  Note this method does NOT take the lock. -/
def reset_timer (st : ManagerState) : ManagerState × List Event :=
  if st.timerPending then
    ({ st with timerPending := true }, [.timerCancel, .timerSet])
  else
    ({ st with timerPending := true }, [.timerSet])

/-- Per-item environment: the outcomes the outside world assigns to the
fallible steps of one iteration of the `process_images` loop. -/
structure ItemEnv where
  /-- a `BaseException` (e.g. `KeyboardInterrupt`) hits this iteration; it is
  not caught by `except Exception` and aborts the loop. -/
  interrupt : Bool
  /-- `Image.open` succeeds. -/
  openOk : Bool
  /-- outcome of `AutoProcessor.from_pretrained`, if construction runs. -/
  procResult : Option Nat
  /-- outcome of `LlavaForConditionalGeneration.from_pretrained`. -/
  modelResult : Option Nat
  /-- text returned by the inference call, `none` if it raises. -/
  genResult : Option Str
  /-- the caption file write succeeds. -/
  writeOk : Bool
deriving Repr, DecidableEq

/-- `JoyCaptionManager.generate_caption`: `load_model`, then `reset_timer`,
then the inference attempt.  Returns `none` when the method raises (a failed
load propagates before the timer is reset; a failed inference propagates
after). -/
def generate_caption (env : ItemEnv) (st : ManagerState) :
    ManagerState × Option Str × List Event :=
  match load_model env.procResult env.modelResult st with
  | (st1, true, tr) => (st1, none, tr)
  | (st1, false, tr) =>
    match reset_timer st1 with
    | (st2, tr2) =>
      match env.genResult with
      | none => (st2, none, tr ++ tr2 ++ [.infer])
      | some caption => (st2, some caption, tr ++ tr2 ++ [.infer])

/-- Python truthiness of the `trigger_word` argument (`None` or a string):
falsy exactly when `None` or the empty string. -/
def truthy : Option Str → Bool
  | none => false
  | some s => !s.isEmpty

/-- Index of the last occurrence of a dot in a name, as `str.rfind` finds. -/
def rfindDot (cs : List Char) : Option Nat :=
  match cs.reverse.findIdx? (fun c => c = '.') with
  | none => none
  | some j => some (cs.length - 1 - j)

/-- `pathlib.PurePath.suffix`: the part of the name from its last dot on,
provided that dot is neither the first nor the last character; `""`
otherwise. -/
def pySuffix (name : Str) : Str :=
  match rfindDot name with
  | none => []
  | some i =>
    if 0 < i ∧ i + 1 < name.length then name.drop i
    else []

/-- `pathlib.PurePath.stem`: the name with `pySuffix` removed. -/
def pyStem (name : Str) : Str :=
  match rfindDot name with
  | none => name
  | some i =>
    if 0 < i ∧ i + 1 < name.length then name.take i
    else name

/-- Python `str.lower` (character-wise lowering; for the ASCII extension
comparisons below this agrees with Python). -/
def lowerStr (s : Str) : Str := s.map Char.toLower

/-- One entry of `directory.iterdir()`: its name and whether `is_file()`
holds (subdirectories and other non-regular entries have `isFile = false`). -/
structure DirEntry where
  name : Str
  isFile : Bool
deriving Repr, DecidableEq

/-- The `supported_formats` set of `get_image_files`. -/
def supported_formats : List Str :=
  [".jpg".data, ".jpeg".data, ".png".data, ".bmp".data, ".gif".data,
   ".tiff".data, ".webp".data]

/-- String order used by `sorted`: code-point lexicographic, which is how
Python compares these equal-directory paths. -/
def strLe (a b : Str) : Prop := a ≤ b

instance : DecidableRel strLe := fun a b => inferInstanceAs (Decidable (a ≤ b))

instance : IsTotal Str strLe := ⟨fun a b => le_total a b⟩

instance : IsTrans Str strLe := ⟨fun _ _ _ hab hbc => le_trans hab hbc⟩

/-- `get_image_files`: the entries of the immediate directory that are
regular files whose lower-cased suffix is a supported format, sorted by
name.  Python `sorted` is a stable merge sort; an insertion sort produces
the same list, since elements comparing equal under `strLe` are identical
strings. -/
def get_image_files (entries : List DirEntry) : List Str :=
  List.insertionSort strLe
    ((entries.filter
      (fun e => e.isFile && decide (lowerStr (pySuffix e.name) ∈ supported_formats))).map
        (fun e => e.name))

/-- The `.txt` extension given to caption files. -/
def txtExt : Str := ".txt".data

/-- The separator placed between the trigger word and the caption. -/
def commaSep : Str := ", ".data

/-- Outcome of one execution of the loop body of `process_images`, before the
surrounding `except Exception` clause is applied. -/
inductive BodyOut where
  | skip
  | ok (file content : Str)
  | raised
  | interrupted
deriving Repr, DecidableEq

/-- One iteration of the `process_images` loop body, up to (but not
including) the `except Exception` handler: compute the caption path, apply
the skip policy against the `existing` output files, open the image, call
`generate_caption`, prepend the trigger word, write the file.  `raised` is an
`Exception` the handler will catch, `interrupted` a `BaseException` it will
not. -/
def processItemBody (skipExisting : Bool) (triggerWord : Option Str)
    (existing : List Str) (name : Str) (env : ItemEnv)
    (st : ManagerState) : ManagerState × BodyOut × List Event :=
  if env.interrupt then (st, .interrupted, [])
  else
    let captionFile := pyStem name ++ txtExt
    if skipExisting && decide (captionFile ∈ existing) then
      (st, .skip, [])
    else if !env.openOk then (st, .raised, [])
    else
      match generate_caption env st with
      | (st1, none, tr) => (st1, .raised, tr)
      | (st1, some caption, tr) =>
        let text :=
          if truthy triggerWord then triggerWord.getD [] ++ commaSep ++ caption
          else caption
        if env.writeOk then
          (st1, .ok captionFile text, tr ++ [.writeFile captionFile])
        else (st1, .raised, tr)

/-- Result recorded for one input item. -/
inductive ItemResult where
  | success (file content : Str)
  | skipped
  | errored
deriving Repr, DecidableEq

/-- State threaded through the `process_images` loop: the manager, the three
counters, the caption files written so far, the per-item results, and the
event trace. -/
structure LoopState where
  mgr : ManagerState
  processed : Nat
  skipped : Nat
  errored : Nat
  written : List Str
  outcomes : List ItemResult
  trace : List Event
deriving Repr, DecidableEq

/-- The `for` loop of `process_images` over the remaining (file, environment)
pairs.  The `except Exception: error_count += 1; continue` clause converts
`raised` into an `errored` record; an `interrupted` body aborts the loop
(first component `false`).  The skip check consults the pre-existing outputs
together with the files written by earlier iterations. -/
def runLoop (skipExisting : Bool) (triggerWord : Option Str)
    (initialOutputs : List Str) :
    List (Str × ItemEnv) → LoopState → Bool × LoopState
  | [], ls => (true, ls)
  | (name, env) :: rest, ls =>
    match processItemBody skipExisting triggerWord
        (initialOutputs ++ ls.written) name env ls.mgr with
    | (st1, .interrupted, tr) =>
      (false, { ls with mgr := st1, trace := ls.trace ++ tr })
    | (st1, .skip, tr) =>
      runLoop skipExisting triggerWord initialOutputs rest
        { ls with
          mgr := st1
          skipped := ls.skipped + 1
          outcomes := ls.outcomes ++ [.skipped]
          trace := ls.trace ++ tr }
    | (st1, .raised, tr) =>
      runLoop skipExisting triggerWord initialOutputs rest
        { ls with
          mgr := st1
          errored := ls.errored + 1
          outcomes := ls.outcomes ++ [.errored]
          trace := ls.trace ++ tr }
    | (st1, .ok file text, tr) =>
      runLoop skipExisting triggerWord initialOutputs rest
        { ls with
          mgr := st1
          processed := ls.processed + 1
          written := ls.written ++ [file]
          outcomes := ls.outcomes ++ [.success file text]
          trace := ls.trace ++ tr }

/-- The `finally` block of `process_images`: `caption_manager.unload_model()`
followed by `if caption_manager.timer: caption_manager.timer.cancel()`. -/
def finallyCleanup (st : ManagerState) : ManagerState × List Event :=
  match unload_model st with
  | (st1, tr1) =>
    if st1.timerPending then
      ({ st1 with timerPending := false },
       Event.finalCleanup :: (tr1 ++ [.timerCancel]))
    else
      ({ st1 with timerPending := false }, Event.finalCleanup :: tr1)

/-- Configuration of one `process_images` call (the arguments a claim
depends on). -/
structure Config where
  skipExisting : Bool
  triggerWord : Option Str
deriving Repr, DecidableEq

/-- How a `process_images` call ends: early return on a missing input
directory, early return when no image file is found, normal completion with
the logged summary counts, or a `BaseException` propagating out of the loop
(after the `finally` block) with the counter values it left behind. -/
inductive RunResult where
  | configError
  | noImages
  | finished (total processed skipped errored : Nat)
  | interrupted (processed skipped errored : Nat)
deriving Repr, DecidableEq

/-- Everything observable about one `process_images` call. -/
structure RunOutput where
  result : RunResult
  outcomes : List ItemResult
  mgr : Option ManagerState
  trace : List Event
deriving Repr, DecidableEq

/-- `process_images`: validate the input directory, create the output
directory, enumerate the image files, run the loop with a fresh
`JoyCaptionManager`, always run the `finally` cleanup, and log the summary.
`inputExists` is `input_path.exists()`, `entries` the input directory
listing, `initialOutputs` the caption files already present in the output
directory, and `envs` the per-item environments, consumed in item order. -/
def process_images (inputExists : Bool) (entries : List DirEntry)
    (initialOutputs : List Str) (cfg : Config) (envs : List ItemEnv) :
    RunOutput :=
  if !inputExists then ⟨.configError, [], none, []⟩
  else
    let files := get_image_files entries
    if files.isEmpty then ⟨.noImages, [], none, [.mkdirOutput]⟩
    else
      match runLoop cfg.skipExisting cfg.triggerWord initialOutputs
          (files.zip envs) ⟨initManager, 0, 0, 0, [], [], []⟩ with
      | (completed, ls) =>
        match finallyCleanup ls.mgr with
        | (mgrF, trF) =>
          ⟨if completed then
              .finished files.length ls.processed ls.skipped ls.errored
            else .interrupted ls.processed ls.skipped ls.errored,
           ls.outcomes, some mgrF,
           Event.mkdirOutput :: (ls.trace ++ trF)⟩

/-- Test for a `success` record. -/
def isSuccess : ItemResult → Bool
  | .success _ _ => true
  | _ => false

/-- Test for a `skipped` record. -/
def isSkipped : ItemResult → Bool
  | .skipped => true
  | _ => false

/-- Test for an `errored` record. -/
def isErrored : ItemResult → Bool
  | .errored => true
  | _ => false

/-- Test for a body execution that raised an `Exception`. -/
def bodyRaised : BodyOut → Bool
  | .raised => true
  | _ => false

/-- Record the `except Exception` handler produces from a body outcome: a
raising body is recorded as that item's error (`interrupted` never reaches
the handler; the value there is irrelevant). -/
def classifyBody : BodyOut → ItemResult
  | .skip => .skipped
  | .ok f c => .success f c
  | .raised => .errored
  | .interrupted => .errored

/-- Ghost observation of the loop: the sequence of per-item body outcomes,
with the manager state and the written-file set threaded exactly as
`runLoop` threads them.  Used to state that the recorded results are the
per-item outcomes, one per attempted item. -/
def runBodies (skipExisting : Bool) (triggerWord : Option Str)
    (initialOutputs : List Str) :
    List (Str × ItemEnv) → ManagerState → List Str → List BodyOut
  | [], _, _ => []
  | (name, env) :: rest, st, written =>
    match processItemBody skipExisting triggerWord (initialOutputs ++ written)
        name env st with
    | (_, .interrupted, _) => [.interrupted]
    | (st1, .skip, _) =>
      BodyOut.skip :: runBodies skipExisting triggerWord initialOutputs rest st1 written
    | (st1, .raised, _) =>
      BodyOut.raised :: runBodies skipExisting triggerWord initialOutputs rest st1 written
    | (st1, .ok f c, _) =>
      BodyOut.ok f c ::
        runBodies skipExisting triggerWord initialOutputs rest st1 (written ++ [f])

/-- Calls a client can make on one `JoyCaptionManager`. -/
inductive Cmd where
  | load (procRes modelRes : Option Nat)
  | unload
  | resetTimer
  | generate (env : ItemEnv)
deriving Repr, DecidableEq

/-- Run a sequence of manager calls (each call runs entirely under the
manager's lock where the source takes it, so a concurrent execution is
equivalent to some such serialization), collecting the event trace. -/
def runCmds : List Cmd → ManagerState → ManagerState × List Event
  | [], st => (st, [])
  | c :: rest, st =>
    let step : ManagerState × List Event :=
      match c with
      | .load pr mr =>
        match load_model pr mr st with
        | (st1, _, tr) => (st1, tr)
      | .unload => unload_model st
      | .resetTimer => reset_timer st
      | .generate env =>
        match generate_caption env st with
        | (st1, _, tr) => (st1, tr)
    match step with
    | (st1, tr1) =>
      match runCmds rest st1 with
      | (st2, tr2) => (st2, tr1 ++ tr2)

/-- Number of live model handles a manager state holds (0 or 1 by type). -/
def modelLive (st : ManagerState) : Nat := if st.model.isSome then 1 else 0

/-- Walk an event trace counting live model handles, failing (`none`) the
moment a model is constructed while one is already live, or destructed while
none is.  `liveSteps n tr = some m` certifies that, starting from `n` live
handles, the live count stays in `{0, 1}` at every instant of `tr` and ends
at `m`. -/
def liveSteps : Nat → List Event → Option Nat
  | n, [] => some n
  | n, Event.constructModel _ :: rest => if n = 0 then liveSteps 1 rest else none
  | n, Event.destructModel :: rest => if n = 1 then liveSteps 0 rest else none
  | n, _ :: rest => liveSteps n rest

/-- Events that change the present/absent state of the handle slots. -/
def transitionEvt : Event → Bool
  | .constructProcessor _ => true
  | .constructModel _ => true
  | .destructModel => true
  | .destructProcessor => true
  | _ => false

/-- Trace shape of a lock-guarded operation: one acquire, then only
handle-state transitions, then one release — so every present/absent
transition in the trace happens while the mutex is held. -/
def lockGuarded (tr : List Event) : Prop :=
  ∃ mid, tr = Event.acquire :: mid ++ [Event.release] ∧
    ∀ e ∈ mid, transitionEvt e = true

/-- Every item record is of exactly one of the three kinds, so the three
tallies partition the record list. -/
theorem count_three_kinds (d : List ItemResult) :
    d.countP isSuccess + d.countP isSkipped + d.countP isErrored = d.length := by
  induction d with
  | nil => simp
  | cons r rest ih =>
    cases r <;> simp [List.countP_cons, isSuccess, isSkipped, isErrored] <;> omega

/-- Loop invariant of `runLoop`: the records it appends are one list `d`,
each counter grows by the tally of its kind in `d`, and on normal completion
`d` has one record per remaining item. -/
theorem runLoop_spec (se : Bool) (tw : Option Str) (io : List Str) :
    ∀ pairs ls, ∃ d : List ItemResult,
      (runLoop se tw io pairs ls).2.outcomes = ls.outcomes ++ d ∧
      (runLoop se tw io pairs ls).2.processed = ls.processed + d.countP isSuccess ∧
      (runLoop se tw io pairs ls).2.skipped = ls.skipped + d.countP isSkipped ∧
      (runLoop se tw io pairs ls).2.errored = ls.errored + d.countP isErrored ∧
      ((runLoop se tw io pairs ls).1 = true → d.length = pairs.length) := by
  intro pairs
  induction pairs with
  | nil => intro ls; exact ⟨[], by simp [runLoop]⟩
  | cons p rest ih =>
    intro ls
    obtain ⟨name, env⟩ := p
    rcases hb : processItemBody se tw (io ++ ls.written) name env ls.mgr with
      ⟨st1, bo, tr⟩
    cases bo with
    | interrupted =>
      refine ⟨[], ?_⟩
      simp [runLoop, hb]
    | skip =>
      obtain ⟨d, h1, h2, h3, h4, h5⟩ := ih
        { ls with
          mgr := st1
          skipped := ls.skipped + 1
          outcomes := ls.outcomes ++ [.skipped]
          trace := ls.trace ++ tr }
      refine ⟨.skipped :: d, ?_, ?_, ?_, ?_, ?_⟩ <;>
        simp only [runLoop, hb] <;>
        simp_all [List.countP_cons, isSuccess, isSkipped, isErrored] <;>
        omega
    | raised =>
      obtain ⟨d, h1, h2, h3, h4, h5⟩ := ih
        { ls with
          mgr := st1
          errored := ls.errored + 1
          outcomes := ls.outcomes ++ [.errored]
          trace := ls.trace ++ tr }
      refine ⟨.errored :: d, ?_, ?_, ?_, ?_, ?_⟩ <;>
        simp only [runLoop, hb] <;>
        simp_all [List.countP_cons, isSuccess, isSkipped, isErrored] <;>
        omega
    | ok f c =>
      obtain ⟨d, h1, h2, h3, h4, h5⟩ := ih
        { ls with
          mgr := st1
          processed := ls.processed + 1
          written := ls.written ++ [f]
          outcomes := ls.outcomes ++ [.success f c]
          trace := ls.trace ++ tr }
      refine ⟨.success f c :: d, ?_, ?_, ?_, ?_, ?_⟩ <;>
        simp only [runLoop, hb] <;>
        simp_all [List.countP_cons, isSuccess, isSkipped, isErrored] <;>
        omega

/-- C1: every `process_images` run that reaches its final summary (normal
completion, including partially completed batches where some items were
skipped or errored) satisfies processed + skipped + errored = total, where
total is the number of image files discovered at the start of the run; each
discovered file contributed exactly one record, and each counter tallies the
records of exactly one kind. -/
theorem C1_summary_partition (inputExists : Bool) (entries : List DirEntry)
    (io : List Str) (cfg : Config) (envs : List ItemEnv)
    (henv : envs.length = (get_image_files entries).length)
    (t p s e : Nat)
    (hres : (process_images inputExists entries io cfg envs).result
      = .finished t p s e) :
    p + s + e = t ∧
    t = (get_image_files entries).length ∧
    (process_images inputExists entries io cfg envs).outcomes.length = t ∧
    p = (process_images inputExists entries io cfg envs).outcomes.countP isSuccess ∧
    s = (process_images inputExists entries io cfg envs).outcomes.countP isSkipped ∧
    e = (process_images inputExists entries io cfg envs).outcomes.countP isErrored := by
  cases inputExists with
  | false => simp [process_images] at hres
  | true =>
    by_cases hf : (get_image_files entries).isEmpty = true
    · simp [process_images, hf] at hres
    · rcases hrl : runLoop cfg.skipExisting cfg.triggerWord io
          ((get_image_files entries).zip envs) ⟨initManager, 0, 0, 0, [], [], []⟩ with
        ⟨completed, lsF⟩
      rcases hfc : finallyCleanup lsF.mgr with ⟨mgrF, trF⟩
      obtain ⟨d, h1, h2, h3, h4, h5⟩ := runLoop_spec cfg.skipExisting cfg.triggerWord io
        ((get_image_files entries).zip envs) ⟨initManager, 0, 0, 0, [], [], []⟩
      rw [hrl] at h1 h2 h3 h4 h5
      simp only [List.nil_append, Nat.zero_add] at h1 h2 h3 h4
      simp [process_images, hf, hrl, hfc] at hres ⊢
      cases completed with
      | false => simp at hres
      | true =>
        simp only [if_true] at hres
        obtain ⟨ht, hp, hs, he⟩ := hres
        have hd : d.length = (get_image_files entries).length := by
          have h6 := h5 rfl
          rwa [List.length_zip, henv, Nat.min_self] at h6
        have hc := count_three_kinds d
        refine ⟨?_, rfl, ?_, ?_, ?_, ?_⟩
        · omega
        · rw [h1]; exact hd
        · rw [h1]; exact h2
        · rw [h1]; exact h3
        · rw [h1]; exact h4

/-- Witness for C1 at a concrete one-image run. -/
theorem C1_summary_partition_witness :
    1 + 0 + 0 = 1 ∧
    1 = (get_image_files [⟨"a.jpg".data, true⟩]).length ∧
    (process_images true [⟨"a.jpg".data, true⟩] [] ⟨true, none⟩
      [⟨false, true, some 1, some 2, some "x".data, true⟩]).outcomes.length = 1 ∧
    1 = (process_images true [⟨"a.jpg".data, true⟩] [] ⟨true, none⟩
      [⟨false, true, some 1, some 2, some "x".data, true⟩]).outcomes.countP isSuccess ∧
    0 = (process_images true [⟨"a.jpg".data, true⟩] [] ⟨true, none⟩
      [⟨false, true, some 1, some 2, some "x".data, true⟩]).outcomes.countP isSkipped ∧
    0 = (process_images true [⟨"a.jpg".data, true⟩] [] ⟨true, none⟩
      [⟨false, true, some 1, some 2, some "x".data, true⟩]).outcomes.countP isErrored :=
  C1_summary_partition true [⟨"a.jpg".data, true⟩] [] ⟨true, none⟩
    [⟨false, true, some 1, some 2, some "x".data, true⟩] (by decide) 1 1 0 0 (by decide)

/-- When `generate_caption` returns a caption, it is the text the inference
environment returned. -/
theorem generate_caption_some (env : ItemEnv) (st st1 : ManagerState)
    (caption : Str) (tr : List Event)
    (h : generate_caption env st = (st1, some caption, tr)) :
    env.genResult = some caption := by
  rcases hl : load_model env.procResult env.modelResult st with ⟨stA, raised, trA⟩
  cases raised
  · rcases hr : reset_timer stA with ⟨stB, trB⟩
    rcases hg : env.genResult with _ | c
    · simp [generate_caption, hl, hr, hg] at h
    · simp [generate_caption, hl, hr, hg] at h
      simp [h.2.1]
  · simp [generate_caption, hl] at h

/-- When the loop body records a success, the persisted content is the
returned caption, with the trigger word and a comma prepended exactly when
the trigger word is truthy. -/
theorem processItemBody_ok_content (se : Bool) (tw : Option Str)
    (existing : List Str) (name : Str) (env : ItemEnv) (st st1 : ManagerState)
    (f content : Str) (tr : List Event)
    (hok : processItemBody se tw existing name env st = (st1, .ok f content, tr)) :
    ∃ c, env.genResult = some c ∧
      content = (if truthy tw then tw.getD [] ++ commaSep ++ c else c) := by
  cases hi : env.interrupt with
  | true => simp [processItemBody, hi] at hok
  | false =>
    cases hsk : se && decide (pyStem name ++ txtExt ∈ existing) with
    | true => simp [processItemBody, hi, hsk] at hok
    | false =>
      cases ho : env.openOk with
      | false => simp [processItemBody, hi, hsk, ho] at hok
      | true =>
        rcases hgc : generate_caption env st with ⟨stA, og, trA⟩
        rcases og with _ | caption
        · simp [processItemBody, hi, hsk, ho, hgc] at hok
        · cases hw : env.writeOk with
          | false => simp [processItemBody, hi, hsk, ho, hgc, hw] at hok
          | true =>
            simp [processItemBody, hi, hsk, ho, hgc, hw] at hok
            refine ⟨caption, generate_caption_some env st stA caption trA hgc, ?_⟩
            rw [← hok.2.1.2]
            simp [List.append_assoc]

/-- C4: for every item that succeeds with a truthy (non-empty) trigger word
`t`, the persisted content is exactly `t ++ ", " ++ caption`, and therefore
starts with `t ++ ", "`; with no trigger word the content is the returned
caption unchanged. -/
theorem C4_trigger_word_prepended (se : Bool) (tw : Option Str)
    (existing : List Str) (name : Str) (env : ItemEnv) (st st1 : ManagerState)
    (f content c : Str) (tr : List Event)
    (hok : processItemBody se tw existing name env st = (st1, .ok f content, tr))
    (hgen : env.genResult = some c) :
    (∀ t, tw = some t → t ≠ [] → content = t ++ commaSep ++ c ∧
      ∃ rest, content = (t ++ commaSep) ++ rest) ∧
    (tw = none → content = c) := by
  obtain ⟨c0, hg0, hcontent⟩ :=
    processItemBody_ok_content se tw existing name env st st1 f content tr hok
  rw [hgen] at hg0
  obtain rfl : c = c0 := by simpa using hg0
  constructor
  · rintro t rfl hne
    have htr : truthy (some t) = true := by
      cases t with
      | nil => simp at hne
      | cons a as => simp [truthy]
    rw [htr, if_pos rfl] at hcontent
    refine ⟨by simpa using hcontent, c, ?_⟩
    simpa [List.append_assoc] using hcontent
  · rintro rfl
    simpa [truthy] using hcontent

/-- Witness for C4: item `cat.jpg` succeeds with caption `a cat.` and
trigger word `sks`; the file content is `sks, a cat.`. -/
theorem C4_trigger_word_prepended_witness :
    (∀ t, (some "sks".data : Option Str) = some t → t ≠ [] →
      "sks, a cat.".data = t ++ ", ".data ++ "a cat.".data ∧
      ∃ rest, "sks, a cat.".data = (t ++ ", ".data) ++ rest) ∧
    ((some "sks".data : Option Str) = none → "sks, a cat.".data = "a cat.".data) :=
  C4_trigger_word_prepended true (some "sks".data) [] "cat.jpg".data
    ⟨false, true, some 1, some 2, some "a cat.".data, true⟩
    initManager ⟨some 2, some 1, true⟩ "cat.txt".data "sks, a cat.".data
    "a cat.".data
    [.acquire, .constructProcessor 1, .constructModel 2, .release, .timerSet,
     .infer, .writeFile "cat.txt".data]
    (by decide) (by decide)

/-- C10: an empty-string trigger word is falsy in Python, so the loop body
behaves exactly as with no trigger word: in particular a successful item's
persisted content is the returned caption with nothing prepended. -/
theorem C10_empty_trigger_word (se : Bool) (existing : List Str) (name : Str)
    (env : ItemEnv) (st : ManagerState) :
    processItemBody se (some []) existing name env st
      = processItemBody se none existing name env st ∧
    (∀ st1 f content tr c,
      processItemBody se (some []) existing name env st = (st1, .ok f content, tr) →
      env.genResult = some c → content = c) := by
  have heq : processItemBody se (some []) existing name env st
      = processItemBody se none existing name env st := by
    unfold processItemBody
    simp [truthy]
  refine ⟨heq, ?_⟩
  intro st1 f content tr c hok hgen
  obtain ⟨c0, hg0, hcontent⟩ :=
    processItemBody_ok_content se (some []) existing name env st st1 f content tr hok
  rw [hgen] at hg0
  obtain rfl : c = c0 := by simpa using hg0
  simpa [truthy] using hcontent

/-- Witness for C10: with trigger word `""` the item `cat.jpg` succeeds and
the content is exactly the returned caption. -/
theorem C10_empty_trigger_word_witness :
    processItemBody true (some []) [] "cat.jpg".data
        ⟨false, true, some 1, some 2, some "a cat.".data, true⟩ initManager
      = processItemBody true none [] "cat.jpg".data
        ⟨false, true, some 1, some 2, some "a cat.".data, true⟩ initManager ∧
    "a cat.".data = "a cat.".data :=
  ⟨(C10_empty_trigger_word true [] "cat.jpg".data
      ⟨false, true, some 1, some 2, some "a cat.".data, true⟩ initManager).1,
   (C10_empty_trigger_word true [] "cat.jpg".data
      ⟨false, true, some 1, some 2, some "a cat.".data, true⟩ initManager).2
     ⟨some 2, some 1, true⟩ "cat.txt".data "a cat.".data
     [.acquire, .constructProcessor 1, .constructModel 2, .release, .timerSet,
      .infer, .writeFile "cat.txt".data]
     "a cat.".data (by decide) (by decide)⟩

/-- C3: when `skip_existing` is set and the derived caption path (stem plus
`.txt` in the output directory) already exists, the loop body returns
Skipped at once — the manager state is untouched (no load, no idle-timer
reset) and no event at all (in particular no inference) is emitted — and the
loop records the item as skipped and proceeds to the rest. -/
theorem C3_skip_existing_untouched (tw : Option Str) (io : List Str)
    (name : Str) (env : ItemEnv) (ls : LoopState)
    (rest : List (Str × ItemEnv))
    (hni : env.interrupt = false)
    (hex : pyStem name ++ txtExt ∈ io ++ ls.written) :
    processItemBody true tw (io ++ ls.written) name env ls.mgr
      = (ls.mgr, .skip, []) ∧
    runLoop true tw io ((name, env) :: rest) ls
      = runLoop true tw io rest
        { ls with
          skipped := ls.skipped + 1
          outcomes := ls.outcomes ++ [.skipped] } := by
  have hbody : processItemBody true tw (io ++ ls.written) name env ls.mgr
      = (ls.mgr, .skip, []) := by
    simp [processItemBody, hni, hex]
  refine ⟨hbody, ?_⟩
  simp [runLoop, hbody]

/-- Witness for C3: `cat.jpg` with `cat.txt` already present is skipped with
no effect on the manager. -/
theorem C3_skip_existing_untouched_witness :
    processItemBody true none (["cat.txt".data] ++ []) "cat.jpg".data
        ⟨false, true, some 1, some 2, some "a cat.".data, true⟩ initManager
      = (initManager, .skip, []) ∧
    runLoop true none ["cat.txt".data]
        [("cat.jpg".data, ⟨false, true, some 1, some 2, some "a cat.".data, true⟩)]
        ⟨initManager, 0, 0, 0, [], [], []⟩
      = runLoop true none ["cat.txt".data] []
        { (⟨initManager, 0, 0, 0, [], [], []⟩ : LoopState) with
          skipped := 0 + 1
          outcomes := [] ++ [.skipped] } :=
  C3_skip_existing_untouched none ["cat.txt".data] "cat.jpg".data
    ⟨false, true, some 1, some 2, some "a cat.".data, true⟩
    ⟨initManager, 0, 0, 0, [], [], []⟩ [] (by decide) (by decide)

/-- C8: when the input directory does not exist, `process_images` ends with
the config error before any work — no output-directory creation, no item
attempted, no manager constructed, no event at all — while every run with a
valid input directory does create the output directory. -/
theorem C8_missing_input_dir (entries : List DirEntry) (io : List Str)
    (cfg : Config) (envs : List ItemEnv) :
    process_images false entries io cfg envs
      = ⟨.configError, [], none, []⟩ ∧
    Event.mkdirOutput ∈ (process_images true entries io cfg envs).trace := by
  constructor
  · simp [process_images]
  · by_cases hf : (get_image_files entries).isEmpty = true
    · simp [process_images, hf]
    · rcases hrl : runLoop cfg.skipExisting cfg.triggerWord io
          ((get_image_files entries).zip envs) ⟨initManager, 0, 0, 0, [], [], []⟩ with
        ⟨completed, lsF⟩
      rcases hfc : finallyCleanup lsF.mgr with ⟨mgrF, trF⟩
      simp [process_images, hf, hrl, hfc]

/-- C6 counterexample: when the processor constructs and the model load then
raises, `load_model` raises but the manager does not return to the absent
state — the processor component survives the failed attempt. -/
theorem C6_partial_handle_counterexample :
    (load_model (some 0) none initManager).2.1 = true ∧
    (load_model (some 0) none initManager).1.processor = some 0 ∧
    ¬ (load_model (some 0) none initManager).1 = initManager := by decide

/-- C6 amended: if construction raises, `load_model` fails and `self.model`
stays `None`, so every subsequent call re-enters construction (and succeeds
when both constructors succeed); however, when the processor was built
before the model load raised, that component is retained (it is simply
overwritten by the next attempt). -/
theorem C6_load_failure_retries (pr mr : Option Nat) (st : ManagerState)
    (hraise : (load_model pr mr st).2.1 = true) :
    (load_model pr mr st).1.model = none ∧
    (∀ p m, (load_model (some p) (some m) (load_model pr mr st).1).1.model
      = some m) := by
  have hnone : st.model = none := by
    rcases hm : st.model with _ | h
    · rfl
    · simp [load_model, hm] at hraise
  rcases pr with _ | p0
  · constructor
    · simp [load_model, hnone]
    · intro p m
      simp [load_model, hnone]
  · rcases mr with _ | m0
    · constructor
      · simp [load_model, hnone]
      · intro p m
        simp [load_model, hnone]
    · simp [load_model, hnone] at hraise

/-- Witness for the amended C6 at the counterexample input: the model slot
is absent after the failure and a subsequent call constructs the model. -/
theorem C6_load_failure_retries_witness :
    (load_model (some 0) none initManager).1.model = none ∧
    (load_model (some 3) (some 4) (load_model (some 0) none initManager).1).1.model
      = some 4 :=
  ⟨(C6_load_failure_retries (some 0) none initManager (by decide)).1,
   (C6_load_failure_retries (some 0) none initManager (by decide)).2 3 4⟩

/-- A loop body whose item environment carries no `BaseException` never ends
in `interrupted`: everything the body can raise is an `Exception` the loop
catches. -/
theorem processItemBody_not_interrupted (se : Bool) (tw : Option Str)
    (existing : List Str) (name : Str) (env : ItemEnv) (st : ManagerState)
    (hni : env.interrupt = false) :
    (processItemBody se tw existing name env st).2.1 ≠ BodyOut.interrupted := by
  cases hsk : se && decide (pyStem name ++ txtExt ∈ existing) with
  | true => simp [processItemBody, hni, hsk]
  | false =>
    cases ho : env.openOk with
    | false => simp [processItemBody, hni, hsk, ho]
    | true =>
      rcases hgc : generate_caption env st with ⟨stA, og, trA⟩
      rcases og with _ | caption
      · simp [processItemBody, hni, hsk, ho, hgc]
      · cases hw : env.writeOk with
        | false => simp [processItemBody, hni, hsk, ho, hgc, hw]
        | true => simp [processItemBody, hni, hsk, ho, hgc, hw]

/-- When no item carries a `BaseException`, the loop completes, attempts
every item, records per item exactly the handler image of that item's body
outcome, and its error counter adds one per raising body. -/
theorem runLoop_bodies (se : Bool) (tw : Option Str) (io : List Str) :
    ∀ pairs ls, (∀ p ∈ pairs, p.2.interrupt = false) →
      (runLoop se tw io pairs ls).1 = true ∧
      (runBodies se tw io pairs ls.mgr ls.written).length = pairs.length ∧
      (runLoop se tw io pairs ls).2.outcomes
        = ls.outcomes ++ (runBodies se tw io pairs ls.mgr ls.written).map classifyBody ∧
      (runLoop se tw io pairs ls).2.errored
        = ls.errored + (runBodies se tw io pairs ls.mgr ls.written).countP bodyRaised := by
  intro pairs
  induction pairs with
  | nil => intro ls hni; simp [runLoop, runBodies]
  | cons p rest ih =>
    intro ls hni
    obtain ⟨name, env⟩ := p
    have hni0 : env.interrupt = false := hni (name, env) (List.mem_cons_self _ _)
    have hnir : ∀ q ∈ rest, q.2.interrupt = false := fun q hq =>
      hni q (List.mem_cons_of_mem _ hq)
    rcases hb : processItemBody se tw (io ++ ls.written) name env ls.mgr with
      ⟨st1, bo, tr⟩
    cases bo with
    | interrupted =>
      have hno := processItemBody_not_interrupted se tw (io ++ ls.written)
        name env ls.mgr hni0
      rw [hb] at hno
      simp at hno
    | skip =>
      obtain ⟨h1, h2, h3, h4⟩ := ih
        { ls with
          mgr := st1
          skipped := ls.skipped + 1
          outcomes := ls.outcomes ++ [.skipped]
          trace := ls.trace ++ tr } hnir
      dsimp only at h1 h2 h3 h4
      refine ⟨?_, ?_, ?_, ?_⟩
      · simpa only [runLoop, hb] using h1
      · simp only [runBodies, hb, List.length_cons, h2]
      · simp only [runLoop, runBodies, hb, List.map_cons, classifyBody]
        rw [h3]
        simp [List.append_assoc]
      · simp only [runLoop, runBodies, hb, List.countP_cons]
        rw [h4]
        simp [bodyRaised]
    | raised =>
      obtain ⟨h1, h2, h3, h4⟩ := ih
        { ls with
          mgr := st1
          errored := ls.errored + 1
          outcomes := ls.outcomes ++ [.errored]
          trace := ls.trace ++ tr } hnir
      dsimp only at h1 h2 h3 h4
      refine ⟨?_, ?_, ?_, ?_⟩
      · simpa only [runLoop, hb] using h1
      · simp only [runBodies, hb, List.length_cons, h2]
      · simp only [runLoop, runBodies, hb, List.map_cons, classifyBody]
        rw [h3]
        simp [List.append_assoc]
      · simp only [runLoop, runBodies, hb, List.countP_cons]
        rw [h4]
        simp [bodyRaised]
        omega
    | ok f c =>
      obtain ⟨h1, h2, h3, h4⟩ := ih
        { ls with
          mgr := st1
          processed := ls.processed + 1
          written := ls.written ++ [f]
          outcomes := ls.outcomes ++ [.success f c]
          trace := ls.trace ++ tr } hnir
      dsimp only at h1 h2 h3 h4
      refine ⟨?_, ?_, ?_, ?_⟩
      · simpa only [runLoop, hb] using h1
      · simp only [runBodies, hb, List.length_cons, h2]
      · simp only [runLoop, runBodies, hb, List.map_cons, classifyBody]
        rw [h3]
        simp [List.append_assoc]
      · simp only [runLoop, runBodies, hb, List.countP_cons]
        rw [h4]
        simp [bodyRaised]

/-- C2: when no `BaseException` hits the run, every per-item failure (open,
load, generate, or write) is caught inside the loop: the run completes with
a final summary (no per-item failure propagates out of `process_images`),
every discovered item is attempted and recorded — a failing item is recorded
as that item's error and the items after it still run — and the final error
count is exactly the number of items whose processing raised. -/
theorem C2_error_isolation (entries : List DirEntry) (io : List Str)
    (cfg : Config) (envs : List ItemEnv)
    (henv : envs.length = (get_image_files entries).length)
    (hne : ¬ (get_image_files entries).isEmpty = true)
    (hni : ∀ e ∈ envs, e.interrupt = false) :
    (process_images true entries io cfg envs).result
      = .finished (get_image_files entries).length
          (((runBodies cfg.skipExisting cfg.triggerWord io
                ((get_image_files entries).zip envs) initManager []).map
              classifyBody).countP isSuccess)
          (((runBodies cfg.skipExisting cfg.triggerWord io
                ((get_image_files entries).zip envs) initManager []).map
              classifyBody).countP isSkipped)
          ((runBodies cfg.skipExisting cfg.triggerWord io
              ((get_image_files entries).zip envs) initManager []).countP
            bodyRaised) ∧
    (process_images true entries io cfg envs).outcomes
      = (runBodies cfg.skipExisting cfg.triggerWord io
          ((get_image_files entries).zip envs) initManager []).map classifyBody ∧
    (runBodies cfg.skipExisting cfg.triggerWord io
        ((get_image_files entries).zip envs) initManager []).length
      = (get_image_files entries).length := by
  rcases hrl : runLoop cfg.skipExisting cfg.triggerWord io
      ((get_image_files entries).zip envs) ⟨initManager, 0, 0, 0, [], [], []⟩ with
    ⟨completed, lsF⟩
  rcases hfc : finallyCleanup lsF.mgr with ⟨mgrF, trF⟩
  have hnip : ∀ p ∈ (get_image_files entries).zip envs, p.2.interrupt = false := by
    intro p hp
    obtain ⟨a, b⟩ := p
    exact hni b (List.of_mem_zip hp).2
  obtain ⟨hc, hlen, hout, herr⟩ := runLoop_bodies cfg.skipExisting cfg.triggerWord
    io ((get_image_files entries).zip envs) ⟨initManager, 0, 0, 0, [], [], []⟩ hnip
  rw [hrl] at hc hout herr
  simp only [List.nil_append, Nat.zero_add] at hc hlen hout herr
  obtain ⟨d, g1, g2, g3, g4, g5⟩ := runLoop_spec cfg.skipExisting cfg.triggerWord
    io ((get_image_files entries).zip envs) ⟨initManager, 0, 0, 0, [], [], []⟩
  rw [hrl] at g1 g2 g3
  simp only [List.nil_append, Nat.zero_add] at g1 g2 g3
  subst hc
  have hdlen : ((get_image_files entries).zip envs).length
      = (get_image_files entries).length := by
    rw [List.length_zip, henv, Nat.min_self]
  have hd : d = (runBodies cfg.skipExisting cfg.triggerWord io
      ((get_image_files entries).zip envs) initManager []).map classifyBody :=
    g1.symm.trans hout
  refine ⟨?_, ?_, ?_⟩
  · simp only [process_images, hne, hrl, hfc, if_true]
    simp only [Bool.not_true, Bool.false_eq_true, if_false]
    rw [g2, g3, herr, hd]
  · simp only [process_images, hne, hrl, hfc, if_true]
    simp only [Bool.not_true, Bool.false_eq_true, if_false]
    exact hout
  · exact hlen.trans hdlen

/-- Witness for C2: a two-image batch whose first item's inference raises
still attempts and succeeds on the second item and reports one error. -/
theorem C2_error_isolation_witness :
    (process_images true [⟨"a.jpg".data, true⟩, ⟨"b.jpg".data, true⟩] []
        ⟨true, none⟩
        [⟨false, true, some 1, some 2, none, true⟩,
         ⟨false, true, some 1, some 2, some "x".data, true⟩]).result
      = .finished 2 1 0 1 ∧
    (process_images true [⟨"a.jpg".data, true⟩, ⟨"b.jpg".data, true⟩] []
        ⟨true, none⟩
        [⟨false, true, some 1, some 2, none, true⟩,
         ⟨false, true, some 1, some 2, some "x".data, true⟩]).outcomes
      = [.errored, .success "b.txt".data "x".data] :=
  ⟨((C2_error_isolation [⟨"a.jpg".data, true⟩, ⟨"b.jpg".data, true⟩] []
      ⟨true, none⟩
      [⟨false, true, some 1, some 2, none, true⟩,
       ⟨false, true, some 1, some 2, some "x".data, true⟩]
      (by decide) (by decide) (by decide)).1).trans (by decide),
   ((C2_error_isolation [⟨"a.jpg".data, true⟩, ⟨"b.jpg".data, true⟩] []
      ⟨true, none⟩
      [⟨false, true, some 1, some 2, none, true⟩,
       ⟨false, true, some 1, some 2, some "x".data, true⟩]
      (by decide) (by decide) (by decide)).2.1).trans (by decide)⟩

/-- Traces of `load_model` never contain the cleanup marker. -/
theorem load_model_no_cleanup (pr mr : Option Nat) (st : ManagerState) :
    Event.finalCleanup ∉ (load_model pr mr st).2.2 := by
  rcases hm : st.model with _ | h <;>
    rcases pr with _ | p <;>
    rcases mr with _ | m <;>
    simp [load_model, hm]

/-- Traces of `reset_timer` never contain the cleanup marker. -/
theorem reset_timer_no_cleanup (st : ManagerState) :
    Event.finalCleanup ∉ (reset_timer st).2 := by
  cases ht : st.timerPending <;> simp [reset_timer, ht]

/-- Traces of `generate_caption` never contain the cleanup marker. -/
theorem generate_caption_no_cleanup (env : ItemEnv) (st : ManagerState) :
    Event.finalCleanup ∉ (generate_caption env st).2.2 := by
  rcases hl : load_model env.procResult env.modelResult st with ⟨stA, raised, trA⟩
  have hlm := load_model_no_cleanup env.procResult env.modelResult st
  rw [hl] at hlm
  cases raised
  · rcases hr : reset_timer stA with ⟨stB, trB⟩
    have hrm := reset_timer_no_cleanup stA
    rw [hr] at hrm
    rcases hg : env.genResult with _ | c <;>
      simp [generate_caption, hl, hr, hg, List.mem_append] <;>
      simp at hlm hrm <;> tauto
  · simpa [generate_caption, hl] using hlm

/-- Traces of the loop body never contain the cleanup marker. -/
theorem processItemBody_no_cleanup (se : Bool) (tw : Option Str)
    (existing : List Str) (name : Str) (env : ItemEnv) (st : ManagerState) :
    Event.finalCleanup ∉ (processItemBody se tw existing name env st).2.2 := by
  have hgm := generate_caption_no_cleanup env st
  cases hi : env.interrupt with
  | true => simp [processItemBody, hi]
  | false =>
    cases hsk : se && decide (pyStem name ++ txtExt ∈ existing) with
    | true => simp [processItemBody, hi, hsk]
    | false =>
      cases ho : env.openOk with
      | false => simp [processItemBody, hi, hsk, ho]
      | true =>
        rcases hgc : generate_caption env st with ⟨stA, og, trA⟩
        rw [hgc] at hgm
        simp only at hgm
        rcases og with _ | caption
        · simpa [processItemBody, hi, hsk, ho, hgc] using hgm
        · cases hw : env.writeOk with
          | false => simpa [processItemBody, hi, hsk, ho, hgc, hw] using hgm
          | true =>
            simp [processItemBody, hi, hsk, ho, hgc, hw, List.mem_append]
            tauto

/-- The loop only appends body traces, so the cleanup marker never appears
in what the loop adds to the trace. -/
theorem runLoop_trace (se : Bool) (tw : Option Str) (io : List Str) :
    ∀ pairs ls, ∃ Δ, (runLoop se tw io pairs ls).2.trace = ls.trace ++ Δ ∧
      Event.finalCleanup ∉ Δ := by
  intro pairs
  induction pairs with
  | nil => intro ls; exact ⟨[], by simp [runLoop]⟩
  | cons p rest ih =>
    intro ls
    obtain ⟨name, env⟩ := p
    rcases hb : processItemBody se tw (io ++ ls.written) name env ls.mgr with
      ⟨st1, bo, tr⟩
    have hbm := processItemBody_no_cleanup se tw (io ++ ls.written) name env ls.mgr
    rw [hb] at hbm
    simp only at hbm
    cases bo with
    | interrupted =>
      refine ⟨tr, ?_, hbm⟩
      simp [runLoop, hb]
    | skip =>
      obtain ⟨Δ, hΔ, hΔm⟩ := ih
        { ls with
          mgr := st1
          skipped := ls.skipped + 1
          outcomes := ls.outcomes ++ [.skipped]
          trace := ls.trace ++ tr }
      refine ⟨tr ++ Δ, ?_, ?_⟩
      · simp only [runLoop, hb]
        rw [hΔ]
        simp [List.append_assoc]
      · simp [List.mem_append]
        tauto
    | raised =>
      obtain ⟨Δ, hΔ, hΔm⟩ := ih
        { ls with
          mgr := st1
          errored := ls.errored + 1
          outcomes := ls.outcomes ++ [.errored]
          trace := ls.trace ++ tr }
      refine ⟨tr ++ Δ, ?_, ?_⟩
      · simp only [runLoop, hb]
        rw [hΔ]
        simp [List.append_assoc]
      · simp [List.mem_append]
        tauto
    | ok f c =>
      obtain ⟨Δ, hΔ, hΔm⟩ := ih
        { ls with
          mgr := st1
          processed := ls.processed + 1
          written := ls.written ++ [f]
          outcomes := ls.outcomes ++ [.success f c]
          trace := ls.trace ++ tr }
      refine ⟨tr ++ Δ, ?_, ?_⟩
      · simp only [runLoop, hb]
        rw [hΔ]
        simp [List.append_assoc]
      · simp [List.mem_append]
        tauto

/-- The `finally` block always leaves the model unloaded and no timer
pending, and its trace carries the cleanup marker exactly once. -/
theorem finallyCleanup_spec (st : ManagerState) :
    (finallyCleanup st).1.model = none ∧
    (finallyCleanup st).1.timerPending = false ∧
    ((finallyCleanup st).2.count Event.finalCleanup = 1) := by
  rcases hm : st.model with _ | h <;>
    cases ht : st.timerPending <;>
    simp [finallyCleanup, unload_model, hm, ht, List.count_cons]

/-- C5: on every run that enters the batch loop — however the loop ends,
normal completion, per-item errors, or a `BaseException` aborting it — the
`finally` cleanup runs exactly once, and afterwards the model is unloaded
and no eviction timer is pending. -/
theorem C5_cleanup_exactly_once (entries : List DirEntry) (io : List Str)
    (cfg : Config) (envs : List ItemEnv)
    (hne : ¬ (get_image_files entries).isEmpty = true) :
    (process_images true entries io cfg envs).trace.count Event.finalCleanup
      = 1 ∧
    ∃ m, (process_images true entries io cfg envs).mgr = some m ∧
      m.model = none ∧ m.timerPending = false := by
  rcases hrl : runLoop cfg.skipExisting cfg.triggerWord io
      ((get_image_files entries).zip envs) ⟨initManager, 0, 0, 0, [], [], []⟩ with
    ⟨completed, lsF⟩
  rcases hfc : finallyCleanup lsF.mgr with ⟨mgrF, trF⟩
  obtain ⟨hm, ht, hcnt⟩ := finallyCleanup_spec lsF.mgr
  rw [hfc] at hm ht hcnt
  simp only at hm ht hcnt
  obtain ⟨Δ, hΔ, hΔm⟩ := runLoop_trace cfg.skipExisting cfg.triggerWord io
    ((get_image_files entries).zip envs) ⟨initManager, 0, 0, 0, [], [], []⟩
  rw [hrl] at hΔ
  simp only [List.nil_append] at hΔ
  constructor
  · simp only [process_images, hne, hrl, hfc]
    simp only [Bool.not_true, Bool.false_eq_true, if_false]
    simp [List.count_cons, List.count_append, hΔ,
      List.count_eq_zero.mpr hΔm, hcnt]
  · refine ⟨mgrF, ?_, hm, ht⟩
    simp only [process_images, hne, hrl, hfc]
    simp only [Bool.not_true, Bool.false_eq_true, if_false]

/-- Witness for C5 on a one-image run. -/
theorem C5_cleanup_exactly_once_witness :
    (process_images true [⟨"a.jpg".data, true⟩] [] ⟨true, none⟩
      [⟨false, true, some 1, some 2, some "x".data, true⟩]).trace.count
        Event.finalCleanup = 1 ∧
    ∃ m, (process_images true [⟨"a.jpg".data, true⟩] [] ⟨true, none⟩
        [⟨false, true, some 1, some 2, some "x".data, true⟩]).mgr = some m ∧
      m.model = none ∧ m.timerPending = false :=
  C5_cleanup_exactly_once [⟨"a.jpg".data, true⟩] [] ⟨true, none⟩
    [⟨false, true, some 1, some 2, some "x".data, true⟩] (by decide)

/-- C7: `get_image_files` returns exactly the names of the regular-file
entries directly inside the input directory (entries that are not regular
files — in particular subdirectories — are never included) whose
lower-cased `pathlib` suffix is in the supported set, in ascending name
order; and when this list is empty the run only reports `noImages`: no item
record, no manager, no work beyond creating the output directory. -/
theorem C7_enumeration (entries : List DirEntry) (io : List Str)
    (cfg : Config) (envs : List ItemEnv) :
    (∀ n, n ∈ get_image_files entries ↔
      ∃ e ∈ entries, e.isFile = true ∧
        lowerStr (pySuffix e.name) ∈ supported_formats ∧ e.name = n) ∧
    List.Sorted strLe (get_image_files entries) ∧
    ((get_image_files entries).isEmpty = true →
      process_images true entries io cfg envs
        = ⟨.noImages, [], none, [.mkdirOutput]⟩) := by
  refine ⟨?_, ?_, ?_⟩
  · intro n
    unfold get_image_files
    rw [List.mem_insertionSort]
    simp only [List.mem_map, List.mem_filter, Bool.and_eq_true,
      decide_eq_true_eq]
    constructor
    · rintro ⟨e, ⟨he, hf, hm⟩, hn⟩
      exact ⟨e, he, hf, hm, hn⟩
    · rintro ⟨e, he, hf, hm, hn⟩
      exact ⟨e, ⟨he, hf, hm⟩, hn⟩
  · exact List.sorted_insertionSort strLe _
  · intro hempty
    simp [process_images, hempty]

/-- Witness for C7: a directory holding only a subdirectory yields the
empty enumeration and the `noImages` early return. -/
theorem C7_enumeration_witness :
    process_images true [⟨"sub".data, false⟩] [] ⟨true, none⟩ []
      = ⟨.noImages, [], none, [.mkdirOutput]⟩ :=
  (C7_enumeration [⟨"sub".data, false⟩] [] ⟨true, none⟩ []).2.2 (by decide)

/-- The live-handle checker distributes over trace concatenation. -/
theorem liveSteps_append (a b : List Event) :
    ∀ n, liveSteps n (a ++ b)
      = (liveSteps n a).bind (fun m => liveSteps m b) := by
  induction a with
  | nil => intro n; simp [liveSteps]
  | cons e rest ih =>
    intro n
    cases e <;> simp only [List.cons_append, liveSteps, ih] <;>
      (try split) <;> simp [ih]

/-- `load_model` preserves the live-handle discipline: it constructs only
from the absent state. -/
theorem load_model_live (pr mr : Option Nat) (st : ManagerState) :
    liveSteps (modelLive st) (load_model pr mr st).2.2
      = some (modelLive (load_model pr mr st).1) := by
  rcases hm : st.model with _ | h <;>
    rcases pr with _ | p <;>
    rcases mr with _ | m <;>
    simp [load_model, modelLive, liveSteps, hm]

/-- `unload_model` preserves the live-handle discipline: it destructs only
from the present state. -/
theorem unload_model_live (st : ManagerState) :
    liveSteps (modelLive st) (unload_model st).2
      = some (modelLive (unload_model st).1) := by
  rcases hm : st.model with _ | h <;>
    simp [unload_model, modelLive, liveSteps, hm]

/-- `reset_timer` touches no handle. -/
theorem reset_timer_live (st : ManagerState) :
    liveSteps (modelLive st) (reset_timer st).2
      = some (modelLive (reset_timer st).1) := by
  cases ht : st.timerPending <;> simp [reset_timer, modelLive, liveSteps, ht]

/-- `generate_caption` preserves the live-handle discipline. -/
theorem generate_caption_live (env : ItemEnv) (st : ManagerState) :
    liveSteps (modelLive st) (generate_caption env st).2.2
      = some (modelLive (generate_caption env st).1) := by
  rcases hl : load_model env.procResult env.modelResult st with ⟨stA, raised, trA⟩
  have hll := load_model_live env.procResult env.modelResult st
  rw [hl] at hll
  simp only at hll
  cases raised
  · rcases hr : reset_timer stA with ⟨stB, trB⟩
    have hrl := reset_timer_live stA
    rw [hr] at hrl
    simp only at hrl
    rcases hg : env.genResult with _ | c <;>
      simp [generate_caption, hl, hr, hg, liveSteps_append, hll, hrl, liveSteps]
  · simpa [generate_caption, hl] using hll

/-- Any serialized sequence of manager calls keeps the live-handle count in
`{0, 1}` at every instant and in agreement with the final state. -/
theorem runCmds_live : ∀ (cmds : List Cmd) (st : ManagerState),
    liveSteps (modelLive st) (runCmds cmds st).2
      = some (modelLive (runCmds cmds st).1) := by
  intro cmds
  induction cmds with
  | nil => intro st; simp [runCmds, liveSteps]
  | cons c rest ih =>
    intro st
    cases c with
    | load pr mr =>
      rcases hs : load_model pr mr st with ⟨st1, r, tr1⟩
      have h1 := load_model_live pr mr st
      rw [hs] at h1
      simp only at h1
      rcases hr : runCmds rest st1 with ⟨st2, tr2⟩
      have h2 := ih st1
      rw [hr] at h2
      simp only at h2
      simp [runCmds, hs, hr, liveSteps_append, h1, h2]
    | unload =>
      rcases hs : unload_model st with ⟨st1, tr1⟩
      have h1 := unload_model_live st
      rw [hs] at h1
      simp only at h1
      rcases hr : runCmds rest st1 with ⟨st2, tr2⟩
      have h2 := ih st1
      rw [hr] at h2
      simp only at h2
      simp [runCmds, hs, hr, liveSteps_append, h1, h2]
    | resetTimer =>
      rcases hs : reset_timer st with ⟨st1, tr1⟩
      have h1 := reset_timer_live st
      rw [hs] at h1
      simp only at h1
      rcases hr : runCmds rest st1 with ⟨st2, tr2⟩
      have h2 := ih st1
      rw [hr] at h2
      simp only at h2
      simp [runCmds, hs, hr, liveSteps_append, h1, h2]
    | generate env =>
      rcases hs : generate_caption env st with ⟨st1, r, tr1⟩
      have h1 := generate_caption_live env st
      rw [hs] at h1
      simp only at h1
      rcases hr : runCmds rest st1 with ⟨st2, tr2⟩
      have h2 := ih st1
      rw [hr] at h2
      simp only at h2
      simp [runCmds, hs, hr, liveSteps_append, h1, h2]

/-- C9: at most one model handle ever exists.  (1) A `load_model` call that
finds a handle present returns at once: state unchanged, no construction
event, only acquire and release.  (2, 3) Every `load_model` and
`unload_model` trace is one acquire, then only handle transitions, then one
release — every present/absent transition happens while the mutex is held,
which justifies serializing concurrent calls.  (4) Along any serialized
call sequence from the initial manager the live-handle count stays in
`{0, 1}` at every instant: no second handle is ever constructed while one is
present. -/
theorem C9_at_most_one_handle :
    (∀ pr mr st h, st.model = some h →
      load_model pr mr st = (st, false, [.acquire, .release])) ∧
    (∀ pr mr st, lockGuarded (load_model pr mr st).2.2) ∧
    (∀ st, lockGuarded (unload_model st).2) ∧
    (∀ cmds, liveSteps 0 (runCmds cmds initManager).2
      = some (modelLive (runCmds cmds initManager).1)) := by
  refine ⟨?_, ?_, ?_, ?_⟩
  · intro pr mr st h hm
    simp [load_model, hm]
  · intro pr mr st
    rcases hm : st.model with _ | h
    · rcases pr with _ | p
      · exact ⟨[], by simp [load_model, hm], by simp⟩
      · rcases mr with _ | m
        · exact ⟨[.constructProcessor p], by simp [load_model, hm],
            by simp [transitionEvt]⟩
        · exact ⟨[.constructProcessor p, .constructModel m],
            by simp [load_model, hm], by simp [transitionEvt]⟩
    · exact ⟨[], by simp [load_model, hm], by simp⟩
  · intro st
    rcases hm : st.model with _ | h
    · exact ⟨[], by simp [unload_model, hm], by simp⟩
    · exact ⟨[.destructModel, .destructProcessor],
        by simp [unload_model, hm], by simp [transitionEvt]⟩
  · intro cmds
    have h := runCmds_live cmds initManager
    simpa [modelLive, initManager] using h

/-- Witness for C9: a present handle short-circuits `load_model`, and a
concrete load/generate/unload sequence keeps the checker satisfied. -/
theorem C9_at_most_one_handle_witness :
    load_model (some 5) (some 6) ⟨some 2, some 1, false⟩
      = (⟨some 2, some 1, false⟩, false, [.acquire, .release]) ∧
    liveSteps 0
        (runCmds [Cmd.load (some 1) (some 2),
          Cmd.generate ⟨false, true, some 3, some 4, some "x".data, true⟩,
          Cmd.unload] initManager).2
      = some (modelLive
          (runCmds [Cmd.load (some 1) (some 2),
            Cmd.generate ⟨false, true, some 3, some 4, some "x".data, true⟩,
            Cmd.unload] initManager).1) :=
  ⟨C9_at_most_one_handle.1 (some 5) (some 6) ⟨some 2, some 1, false⟩ 2 rfl,
   C9_at_most_one_handle.2.2.2
     [Cmd.load (some 1) (some 2),
      Cmd.generate ⟨false, true, some 3, some 4, some "x".data, true⟩,
      Cmd.unload]⟩

end JoyCaptionBatch
